import Mathlib

/-!
Verification of the executor-side HTTP API of agola
(`internal/services/runservice/executor/api.go`).

The development shallowly embeds the four handlers of that file:

* `taskSubmissionHandler.ServeHTTP` (lines 39-49),
* `logsHandler.ServeHTTP` / `readLogs` (lines 63-163),
* `archivesHandler.ServeHTTP` / `readArchive` (lines 173-217).

Files are byte lists (`List Char`), the HTTP query is an association
list, and the tail-follow read loop of `readLogs` is a fuel-indexed
state machine whose environment supplies, at each poll, the outcome of
the running-task registry check and the bytes appended by the external
writer during the sleep.
-/

set_option autoImplicit false

namespace AgolaExecutorApi

/-! ### The log file model and `bufio.Reader.ReadBytes` -/

/-- Index of the first newline byte in a byte list, if any. -/
def findNl : List Char → Option Nat
  | [] => none
  | c :: cs => if c = '\n' then some 0 else (findNl cs).map (· + 1)

/-- Model of `br.ReadBytes('\n')` (api.go line 129) reading from file
contents `file` with the read cursor at byte offset `pos`.  Returns
`(data, eof, newPos)`: the bytes returned (up to and including the
delimiter when one is found), whether `io.EOF` was hit, and the file
cursor after the read.  At an EOF the whole remainder of the file has
been consumed, so the cursor sits at `file.length`; this matches the
Go code, where at EOF the `bufio` buffer is fully drained, so the
underlying cursor used by `f.Seek` (line 135) equals the logical read
position. -/
def readBytesNl (file : List Char) (pos : Nat) : List Char × Bool × Nat :=
  let rest := file.drop pos
  match findNl rest with
  | some i => (rest.take (i + 1), false, pos + i + 1)
  | none => (rest, true, file.length)

/-- State of one `readLogs` stream (api.go lines 123-162).
`file` is the current contents of the log file (mutated by the
external writer), `pos` the read cursor, `flushstop`/`stop` the two
loop flags of the Go code, `out` the list of byte chunks passed to
`w.Write` so far (in order), and `sleeps` the number of
`time.Sleep(500ms)` calls performed so far. -/
structure LoopState where
  file : List Char
  pos : Nat
  flushstop : Bool
  stop : Bool
  out : List (List Char)
  sleeps : Nat
  deriving DecidableEq, Repr

/-- Initial state of `readLogs` on a log file with contents `f`:
cursor at 0, both flags false, nothing written, no sleeps yet. -/
def initState (f : List Char) : LoopState :=
  ⟨f, 0, false, false, [], 0⟩

/-- One environment event per poll cycle `k`: the boolean is the
outcome of the registry check at lines 139-148 (`true` when the task
has no registry handle or `Steps[step].Phase.IsFinished()`, i.e. when
the code sets `flushstop = true`), and the byte list is what the
external writer appends to the log file during that poll's sleep. -/
def Env : Type := Nat → Bool × List Char

/-- The `for` loop of `readLogs` (api.go lines 125-162), fuel-indexed.
`follow` is the handler's follow flag.  Each fuel unit is one loop
iteration; `none` means the fuel ran out, `some s` means the loop
returned `nil` (line 127) in state `s`.  The branches are, in order:
the `stop` return; a successful `ReadBytes` (delimiter found) followed
by `w.Write(data)`; EOF with `!flushstop && follow`, which seeks the
cursor back by `data.length` (line 135: the cursor after the read is
`npos`, the seek puts it at `npos - data.length`), runs the registry
check, sleeps (the writer appending during the sleep), and continues
without writing; and EOF otherwise, which sets `stop = true` and falls
through to `w.Write(data)`. -/
def runF (env : Env) (follow : Bool) : Nat → LoopState → Option LoopState
  | 0, _ => none
  | fuel + 1, s =>
    if s.stop then some s
    else
      match readBytesNl s.file s.pos with
      | (data, eof, npos) =>
        if eof then
          if !s.flushstop && follow then
            runF env follow fuel
              { s with pos := npos - data.length,
                       flushstop := s.flushstop || (env s.sleeps).1,
                       file := s.file ++ (env s.sleeps).2,
                       sleeps := s.sleeps + 1 }
          else
            runF env follow fuel
              { s with pos := npos, stop := true, out := s.out ++ [data] }
        else
          runF env follow fuel { s with pos := npos, out := s.out ++ [data] }

/-! ### `strconv.Atoi` and the query string -/

/-- Accumulate a decimal digit string; `none` if empty or any
non-digit character occurs.  Models the digit loop of Go's
`strconv.ParseInt(s, 10, 0)`. -/
def parseDigits : List Char → Option Nat
  | [] => none
  | ds => go ds 0
where
  go : List Char → Nat → Option Nat
    | [], acc => some acc
    | c :: cs, acc =>
      if '0' ≤ c ∧ c ≤ '9' then go cs (acc * 10 + (c.toNat - '0'.toNat))
      else none

/-- Model of Go's `strconv.Atoi` (api.go lines 80, 186):
`ParseInt(s, 10, 0)` with 64-bit ints — an optional single sign
followed by at least one decimal digit, with the signed result
required to fit in `int64`.  `none` models a returned error. -/
def atoi (s : String) : Option Int :=
  match s.toList with
  | [] => none
  | c :: rest =>
    let signAndDigits : Bool × List Char :=
      if c = '-' then (true, rest)
      else if c = '+' then (false, rest)
      else (false, c :: rest)
    match parseDigits signAndDigits.2 with
    | none => none
    | some n =>
      if signAndDigits.1 then
        if n ≤ 2 ^ 63 then some (-(n : Int)) else none
      else
        if n < 2 ^ 63 then some (n : Int) else none

/-- An HTTP query string as an ordered list of key/value pairs. -/
def Query : Type := List (String × String)

/-- Model of `r.URL.Query().Get(k)`: the first value bound to key
`k`, or the empty string if the key is absent. -/
def queryGet (q : Query) (k : String) : String :=
  match List.find? (fun p => p.1 = k) q with
  | some p => p.2
  | none => ""

/-- Model of `_, ok := r.URL.Query()[k]` (api.go line 86): whether
the key appears in the query at all. -/
def queryHas (q : Query) (k : String) : Bool :=
  List.any q (fun p => p.1 = k)

/-! ### The logs endpoint parameter validation -/

/-- Outcome of the parameter-validation part of
`logsHandler.ServeHTTP` (api.go lines 70-91): either an immediate
`400` with no further work, or a dispatch to
`readTaskLogs(taskID, step, w, follow)` — the only continuation that
resolves a log path and opens a file. -/
inductive LogsRoute where
  | badRequest
  | dispatch (taskID : String) (step : Int) (follow : Bool)
  deriving DecidableEq, Repr

/-- `logsHandler.ServeHTTP` up to the dispatch (api.go lines 70-91):
reject with 400 when `taskid` is empty/absent, when `step` is
empty/absent, or when `step` does not parse with `Atoi`; otherwise
dispatch with the parsed step and the presence of `follow`. -/
def logsServeHTTP (q : Query) : LogsRoute :=
  if queryGet q "taskid" = "" then .badRequest
  else if queryGet q "step" = "" then .badRequest
  else
    match atoi (queryGet q "step") with
    | none => .badRequest
    | some step => .dispatch (queryGet q "taskid") step (queryHas q "follow")

/-! ### The archives endpoint -/

/-- Abstract state of the archive file named by the resolved path:
absent (`os.Open` fails with not-exist), failing to open for another
reason, opening but failing mid-`io.Copy` after `w` bytes were
copied, or fully readable. -/
inductive FileState where
  | absent
  | openFail
  | copyFail (written : List Char)
  | present (contents : List Char)
  deriving DecidableEq, Repr

/-- Error class of a failed archive read, as distinguished by
`os.IsNotExist` in `archivesHandler.ServeHTTP` (api.go line 195). -/
inductive FileErr where
  | notExist
  | ioError
  deriving DecidableEq, Repr

/-- Model of `archivesHandler.readArchive` (api.go lines 204-217):
open the archive file and `io.Copy` it to the sink.  Returns the
error (if any) and the bytes written to the client body sink. -/
def readArchive (file : FileState) : Option FileErr × List Char :=
  match file with
  | .absent => (some .notExist, [])
  | .openFail => (some .ioError, [])
  | .copyFail written => (some .ioError, written)
  | .present contents => (none, contents)

/-- HTTP status codes produced by the two GET endpoints. -/
inductive Status where
  | ok200
  | badRequest400
  | notFound404
  | serverError500
  deriving DecidableEq, Repr

/-- Model of `archivesHandler.ServeHTTP` (api.go lines 173-202):
validate `taskid` and `step` exactly as the logs endpoint does, then
read the archive at `archivePath taskID step` from filesystem `fs`
and map a not-exist error to 404 and any other error to 500.
Returns the status and the bytes written to the client body. -/
def archivesServeHTTP (fs : String → FileState)
    (archivePath : String → Int → String) (q : Query) :
    Status × List Char :=
  if queryGet q "taskid" = "" then (.badRequest400, [])
  else if queryGet q "step" = "" then (.badRequest400, [])
  else
    match atoi (queryGet q "step") with
    | none => (.badRequest400, [])
    | some step =>
      match readArchive (fs (archivePath (queryGet q "taskid") step)) with
      | (some .notExist, w) => (.notFound404, w)
      | (some .ioError, w) => (.serverError500, w)
      | (none, w) => (.ok200, w)

/-! ### The submission endpoint -/

/-- Response of `taskSubmissionHandler.ServeHTTP` (api.go lines
39-49): `500` with an empty error body on decode failure, otherwise
the default success response with no body written. -/
inductive SubmitResponse where
  | accepted
  | serverError500
  deriving DecidableEq, Repr

/-- Model of `taskSubmissionHandler.ServeHTTP` (api.go lines 39-49)
over an abstract task type `α` (`*types.ExecutorTask`).  `decoded` is
the result of `json.Decode` on the request body (`none` = decode
error); `sent` is the sequence of tasks already handed to the
single-consumer channel `h.c`, to which a successful submission is
appended by the synchronous send `h.c <- et`. -/
def taskSubmissionServeHTTP {α : Type} (decoded : Option α)
    (sent : List α) : SubmitResponse × List α :=
  match decoded with
  | none => (.serverError500, sent)
  | some et => (.accepted, sent ++ [et])

/-! ### The running-task registry check -/

/-- Modelled from the spec: a step's lifecycle phase.  The phase
enumeration and its `IsFinished` predicate live in the runservice
`types` package, which is outside this file; §3 of the design
describes it as "not-started, running, and a set of finished
sub-states — success, failed, stopped — collapsed ... into the
boolean predicate is-finished". -/
inductive Phase where
  | notStarted
  | running
  | success
  | failed
  | stopped
  deriving DecidableEq, Repr

/-- Modelled from the spec: `Phase.IsFinished()` collapses the three
terminal sub-states. -/
def Phase.IsFinished : Phase → Bool
  | .success => true
  | .failed => true
  | .stopped => true
  | _ => false

/-- Model of the Go slice access `rt.et.Status.Steps[step]` (api.go
line 144) on a steps slice of phases, with `step` the
`Atoi`-parsed query integer: `none` models the runtime panic on an
out-of-range index (negative, or at least the slice length), `some`
the in-bounds read. -/
def stepsAccess (steps : List Phase) (step : Int) : Option Phase :=
  if h : 0 ≤ step ∧ step.toNat < steps.length then
    some (steps.get ⟨step.toNat, h.2⟩)
  else none

/-- Model of the registry consultation at api.go lines 139-148:
`h.e.runningTasks.get(taskID)` returning no handle makes the code
set `flushstop = true`; with a handle, `Steps[step].Phase.IsFinished()`
is read under the handle's lock.  `none` models the index panic,
`some b` the value the loop assigns to `flushstop`. -/
def pollCheck (registry : String → Option (List Phase))
    (taskID : String) (step : Int) : Option Bool :=
  match registry taskID with
  | none => some true
  | some steps => (stepsAccess steps step).map Phase.IsFinished

/-! ### Derived notions and concrete schedules used by the theorems -/

/-- A delivered chunk is a complete line: nonempty and ending in the
newline delimiter. -/
def endsNl (u : List Char) : Prop :=
  u ≠ [] ∧ u.getLast? = some '\n'

/-- Invariant of the `readLogs` loop: the bytes written so far are
exactly the first `pos` bytes of the file (each byte delivered once,
in order); the cursor never passes the end of the file; while the
loop is running every chunk written is a complete delimited line, and
once `stop` is set every chunk but the last is, and the whole file
has been consumed. -/
structure Inv (s : LoopState) : Prop where
  flatten_eq : s.out.flatten = s.file.take s.pos
  pos_le : s.pos ≤ s.file.length
  units_run : s.stop = false → ∀ u ∈ s.out, endsNl u
  units_done : s.stop = true →
    (∀ u ∈ s.out.dropLast, endsNl u) ∧ s.pos = s.file.length

/-- A registry schedule that always answers "finished" with no
writer appends. -/
def env0 : Env := fun _ => (true, [])

/-- The registry schedule of the worked example: the step is not yet
finished at the first poll and finished from the second poll on; the
writer appends nothing. -/
def envC2 : Env := fun k => (decide (1 ≤ k), [])

/-- The final loop state of a follow-mode read of `"a\nb"` under
`env0`. -/
def sC1 : LoopState :=
  ⟨"a\nb".toList, 3, true, true, ["a\n".toList, "b".toList], 1⟩

/-- A mid-stream state that has just entered flush-and-stop mode:
file `"c"`, cursor at its start, `flushstop` set. -/
def sFlush : LoopState :=
  ⟨"c".toList, 0, true, false, [], 0⟩

/-- The concrete query of the negative-step counterexample. -/
def qNeg : Query := [("taskid", "t"), ("step", "-1")]

/-! ### Helper lemmas about `findNl` and `readBytesNl` -/

theorem findNl_some {l : List Char} {i : Nat} (h : findNl l = some i) :
    i < l.length ∧ l[i]? = some '\n' := by
  induction l generalizing i with
  | nil => simp [findNl] at h
  | cons c cs ih =>
    by_cases hc : c = '\n'
    · simp [findNl, hc] at h
      subst h
      simp [hc]
    · simp [findNl, hc] at h
      obtain ⟨j, hj, hij⟩ := h
      obtain ⟨hlt, hget⟩ := ih hj
      subst hij
      refine ⟨by simpa using Nat.succ_lt_succ hlt, ?_⟩
      simpa using hget

theorem take_findNl_endsNl {l : List Char} {i : Nat} (h : findNl l = some i) :
    endsNl (l.take (i + 1)) := by
  obtain ⟨hlt, hget⟩ := findNl_some h
  constructor
  · intro hemp
    have : (l.take (i + 1)).length = i + 1 := by
      simp [List.length_take]
      omega
    rw [hemp] at this
    simp at this
  · have hlen : (l.take (i + 1)).length = i + 1 := by
      simp [List.length_take]
      omega
    rw [List.getLast?_eq_getElem?, hlen]
    simpa using (List.getElem?_take_of_lt (l := l) (by omega : i < i + 1)).trans hget

/-! ### Unfolding lemmas for one iteration of the loop -/

theorem runF_stop (env : Env) (follow : Bool) (fuel : Nat) (s : LoopState)
    (h : s.stop = true) : runF env follow (fuel + 1) s = some s := by
  simp [runF, h]

theorem runF_line (env : Env) (follow : Bool) (fuel : Nat) (s : LoopState) (i : Nat)
    (h : s.stop = false) (hf : findNl (s.file.drop s.pos) = some i) :
    runF env follow (fuel + 1) s =
      runF env follow fuel
        { s with pos := s.pos + i + 1,
                 out := s.out ++ [(s.file.drop s.pos).take (i + 1)] } := by
  simp [runF, h, readBytesNl, hf]

theorem runF_eof_cont (env : Env) (follow : Bool) (fuel : Nat) (s : LoopState)
    (h : s.stop = false) (hf : findNl (s.file.drop s.pos) = none)
    (hc : (!s.flushstop && follow) = true) :
    runF env follow (fuel + 1) s =
      runF env follow fuel
        { s with pos := s.file.length - (s.file.drop s.pos).length,
                 flushstop := s.flushstop || (env s.sleeps).1,
                 file := s.file ++ (env s.sleeps).2,
                 sleeps := s.sleeps + 1 } := by
  simp [runF, h, readBytesNl, hf, hc]

theorem runF_eof_stop (env : Env) (follow : Bool) (fuel : Nat) (s : LoopState)
    (h : s.stop = false) (hf : findNl (s.file.drop s.pos) = none)
    (hc : (!s.flushstop && follow) = false) :
    runF env follow (fuel + 1) s =
      runF env follow fuel
        { s with pos := s.file.length, stop := true,
                 out := s.out ++ [s.file.drop s.pos] } := by
  simp [runF, h, readBytesNl, hf, hc]

/-! ### Fuel monotonicity -/

theorem runF_mono (env : Env) (follow : Bool) :
    ∀ (fuel fuel' : Nat) (s s' : LoopState), fuel ≤ fuel' →
      runF env follow fuel s = some s' → runF env follow fuel' s = some s' := by
  intro fuel
  induction fuel with
  | zero => intro fuel' s s' _ h; simp [runF] at h
  | succ n ih =>
    intro fuel' s s' hle h
    obtain ⟨m, rfl⟩ : ∃ m, fuel' = m + 1 :=
      ⟨fuel' - 1, by omega⟩
    cases hstop : s.stop with
    | true =>
      rw [runF_stop env follow n s hstop] at h
      rw [runF_stop env follow m s hstop]
      exact h
    | false =>
      cases hf : findNl (s.file.drop s.pos) with
      | some i =>
        rw [runF_line env follow n s i hstop hf] at h
        rw [runF_line env follow m s i hstop hf]
        exact ih m _ _ (by omega) h
      | none =>
        cases hc : (!s.flushstop && follow) with
        | true =>
          rw [runF_eof_cont env follow n s hstop hf hc] at h
          rw [runF_eof_cont env follow m s hstop hf hc]
          exact ih m _ _ (by omega) h
        | false =>
          rw [runF_eof_stop env follow n s hstop hf hc] at h
          rw [runF_eof_stop env follow m s hstop hf hc]
          exact ih m _ _ (by omega) h

/-! ### The streaming invariant -/

theorem initState_inv (f : List Char) : Inv (initState f) := by
  refine ⟨?_, ?_, ?_, ?_⟩
  · simp [initState]
  · simp [initState]
  · intro _ u hu
    simp [initState] at hu
  · intro hstop
    simp [initState] at hstop

theorem runF_inv (env : Env) (follow : Bool) :
    ∀ (fuel : Nat) (s s' : LoopState), Inv s →
      runF env follow fuel s = some s' → Inv s' := by
  intro fuel
  induction fuel with
  | zero => intro s s' _ h; simp [runF] at h
  | succ n ih =>
    intro s s' hinv h
    cases hstop : s.stop with
    | true =>
      rw [runF_stop env follow n s hstop] at h
      cases h
      exact hinv
    | false =>
      cases hf : findNl (s.file.drop s.pos) with
      | some i =>
        rw [runF_line env follow n s i hstop hf] at h
        refine ih _ _ ?_ h
        obtain ⟨hlt, _⟩ := findNl_some hf
        rw [List.length_drop] at hlt
        refine ⟨?_, ?_, ?_, ?_⟩
        · simp only [List.flatten_append, List.flatten_cons, List.flatten_nil,
            List.append_nil, hinv.flatten_eq]
          have : s.pos + i + 1 = s.pos + (i + 1) := by omega
          rw [this, List.take_add s.file s.pos (i + 1)]
        · simp only []
          omega
        · intro _ u hu
          rcases List.mem_append.1 hu with hu | hu
          · exact hinv.units_run hstop u hu
          · rcases List.mem_singleton.1 hu with rfl
            exact take_findNl_endsNl hf
        · intro hst
          simp at hst
          exact absurd hst (by simp [hstop])
      | none =>
        cases hc : (!s.flushstop && follow) with
        | true =>
          rw [runF_eof_cont env follow n s hstop hf hc] at h
          refine ih _ _ ?_ h
          have hple := hinv.pos_le
          refine ⟨?_, ?_, ?_, ?_⟩
          · simp only [List.length_drop]
            have hpos : s.file.length - (s.file.length - s.pos) = s.pos := by omega
            rw [hpos, List.take_append_of_le_length hple, hinv.flatten_eq]
          · simp only [List.length_drop, List.length_append]
            omega
          · intro _ u hu
            exact hinv.units_run hstop u hu
          · intro hst
            simp at hst
            exact absurd hst (by simp [hstop])
        | false =>
          rw [runF_eof_stop env follow n s hstop hf hc] at h
          refine ih _ _ ?_ h
          refine ⟨?_, ?_, ?_, ?_⟩
          · simp only [List.flatten_append, List.flatten_cons, List.flatten_nil,
              List.append_nil, hinv.flatten_eq]
            rw [List.take_append_drop, List.take_length]
          · simp
          · intro hst
            simp at hst
          · intro _
            constructor
            · simp only [List.dropLast_concat]
              exact hinv.units_run hstop
            · rfl

/-- A run that returns did so through the `stop` flag. -/
theorem runF_some_stop (env : Env) (follow : Bool) :
    ∀ (fuel : Nat) (s s' : LoopState),
      runF env follow fuel s = some s' → s'.stop = true := by
  intro fuel
  induction fuel with
  | zero => intro s s' h; simp [runF] at h
  | succ n ih =>
    intro s s' h
    cases hstop : s.stop with
    | true =>
      rw [runF_stop env follow n s hstop] at h
      cases h
      exact hstop
    | false =>
      cases hf : findNl (s.file.drop s.pos) with
      | some i =>
        rw [runF_line env follow n s i hstop hf] at h
        exact ih _ _ h
      | none =>
        cases hc : (!s.flushstop && follow) with
        | true =>
          rw [runF_eof_cont env follow n s hstop hf hc] at h
          exact ih _ _ h
        | false =>
          rw [runF_eof_stop env follow n s hstop hf hc] at h
          exact ih _ _ h

/-! ### Termination lemmas -/

/-- When the loop can no longer enter the poll branch — `flushstop`
already set, or `follow` off — it drains the rest of the file in one
pass: every remaining complete line, then the tail after the last
delimiter (possibly empty, possibly undelimited), then stops, with no
further sleeps and no writer interleaving. -/
theorem runF_drain (env : Env) (follow : Bool) :
    ∀ (d : Nat) (s : LoopState), s.stop = false →
      (!s.flushstop && follow) = false →
      s.pos ≤ s.file.length → s.file.length - s.pos ≤ d →
      ∃ s', runF env follow (d + 2) s = some s' ∧
        s'.file = s.file ∧ s'.sleeps = s.sleeps ∧ s'.stop = true ∧
        s'.pos = s.file.length ∧
        s'.out.flatten = s.out.flatten ++ s.file.drop s.pos := by
  intro d
  induction d with
  | zero =>
    intro s hstop hc hple hd
    have hpos : s.pos = s.file.length := by omega
    have hdrop : s.file.drop s.pos = [] := by
      rw [hpos]
      exact List.drop_length s.file
    have hf : findNl (s.file.drop s.pos) = none := by
      rw [hdrop]
      rfl
    rw [show (0 + 2 : Nat) = 1 + 1 from rfl,
      runF_eof_stop env follow 1 s hstop hf hc]
    refine ⟨_, runF_stop env follow 0 _ rfl, rfl, rfl, rfl, rfl, ?_⟩
    simp [hdrop]
  | succ n ih =>
    intro s hstop hc hple hd
    cases hf : findNl (s.file.drop s.pos) with
    | some i =>
      obtain ⟨hlt, _⟩ := findNl_some hf
      rw [List.length_drop] at hlt
      rw [show n + 1 + 2 = (n + 2) + 1 from rfl,
        runF_line env follow (n + 2) s i hstop hf]
      obtain ⟨s', hrun, hfile, hsleeps, hstop', hpos', hout⟩ :=
        ih { s with pos := s.pos + i + 1,
                    out := s.out ++ [(s.file.drop s.pos).take (i + 1)] }
          hstop hc (by simp only []; omega) (by simp only []; omega)
      refine ⟨s', runF_mono env follow (n + 2) (n + 2) _ _ le_rfl hrun,
        hfile, hsleeps, hstop', hpos', ?_⟩
      rw [hout]
      simp only [List.flatten_append, List.flatten_cons, List.flatten_nil,
        List.append_nil, List.append_assoc]
      congr 1
      have : s.pos + i + 1 = s.pos + (i + 1) := by omega
      rw [this]
      exact List.drop_take_append_drop s.file s.pos (i + 1)
    | none =>
      rw [show n + 1 + 2 = (n + 2) + 1 from rfl,
        runF_eof_stop env follow (n + 2) s hstop hf hc]
      rw [show n + 2 = (n + 1) + 1 from rfl]
      refine ⟨_, runF_stop env follow (n + 1) _ rfl, rfl, rfl, rfl, rfl, ?_⟩

      simp

/-- In follow mode over a task whose registry check answers
"finished" at every poll and whose writer appends nothing, a stream
that is still in its normal reading state drains the file after
exactly one more sleep. -/
theorem runF_finished (env : Env) (happ : ∀ k, env k = (true, [])) :
    ∀ (d : Nat) (s : LoopState), s.stop = false → s.flushstop = false →
      s.pos ≤ s.file.length → s.file.length - s.pos ≤ d →
      ∃ s', runF env true (d + 3) s = some s' ∧
        s'.file = s.file ∧ s'.sleeps = s.sleeps + 1 ∧ s'.stop = true ∧
        s'.out.flatten = s.out.flatten ++ s.file.drop s.pos := by
  intro d
  induction d with
  | zero =>
    intro s hstop hfs hple hd
    have hpos : s.pos = s.file.length := by omega
    have hdrop : s.file.drop s.pos = [] := by
      rw [hpos]
      exact List.drop_length s.file
    have hf : findNl (s.file.drop s.pos) = none := by
      rw [hdrop]
      rfl
    have hc : (!s.flushstop && true) = true := by simp [hfs]
    rw [show (0 + 3 : Nat) = 2 + 1 from rfl,
      runF_eof_cont env true 2 s hstop hf hc]
    obtain ⟨s', hrun, hfile, hsleeps, hstop', _, hout⟩ :=
      runF_drain env true 0
        { s with pos := s.file.length - (s.file.drop s.pos).length,
                 flushstop := s.flushstop || (env s.sleeps).1,
                 file := s.file ++ (env s.sleeps).2,
                 sleeps := s.sleeps + 1 }
        hstop (by simp [hfs, happ s.sleeps]) (by simp [happ s.sleeps])
        (by simp [happ s.sleeps]; omega)
    refine ⟨s', hrun, ?_, hsleeps, hstop', ?_⟩
    · rw [hfile]
      simp [happ s.sleeps]
    · rw [hout, hdrop]
      simp [happ s.sleeps, hpos]
  | succ n ih =>
    intro s hstop hfs hple hd
    cases hf : findNl (s.file.drop s.pos) with
    | some i =>
      obtain ⟨hlt, _⟩ := findNl_some hf
      rw [List.length_drop] at hlt
      rw [show n + 1 + 3 = (n + 3) + 1 from rfl,
        runF_line env true (n + 3) s i hstop hf]
      obtain ⟨s', hrun, hfile, hsleeps, hstop', hout⟩ :=
        ih { s with pos := s.pos + i + 1,
                    out := s.out ++ [(s.file.drop s.pos).take (i + 1)] }
          hstop hfs (by simp only []; omega) (by simp only []; omega)
      refine ⟨s', hrun, hfile, hsleeps, hstop', ?_⟩
      rw [hout]
      simp only [List.flatten_append, List.flatten_cons, List.flatten_nil,
        List.append_nil, List.append_assoc]
      congr 1
      have : s.pos + i + 1 = s.pos + (i + 1) := by omega
      rw [this]
      exact List.drop_take_append_drop s.file s.pos (i + 1)
    | none =>
      have hc : (!s.flushstop && true) = true := by simp [hfs]
      rw [show n + 1 + 3 = (n + 3) + 1 from rfl,
        runF_eof_cont env true (n + 3) s hstop hf hc]
      have hdl : (s.file.drop s.pos).length = s.file.length - s.pos :=
        List.length_drop s.pos s.file
      obtain ⟨s', hrun, hfile, hsleeps, hstop', _, hout⟩ :=
        runF_drain env true (n + 1)
          { s with pos := s.file.length - (s.file.drop s.pos).length,
                   flushstop := s.flushstop || (env s.sleeps).1,
                   file := s.file ++ (env s.sleeps).2,
                   sleeps := s.sleeps + 1 }
          hstop (by simp [hfs, happ s.sleeps])
          (by simp [happ s.sleeps])
          (by simp [happ s.sleeps]; omega)
      refine ⟨s', runF_mono env true (n + 1 + 2) (n + 3) _ _ (by omega) hrun,
        ?_, hsleeps, hstop', ?_⟩
      · rw [hfile]
        simp [happ s.sleeps]
      · rw [hout]
        simp only [happ s.sleeps, List.append_nil, hdl]
        have hpos : s.file.length - (s.file.length - s.pos) = s.pos := by omega
        rw [hpos]

/-! ### Claim theorems -/

/-- **C1.** In follow mode, an EOF mid-line makes the reader seek the
cursor back by exactly the length of the partial line, so across any
interleaving of appends (at poll cycles) and polls, a terminated
stream has delivered every byte of the file exactly once and in
order (`s'.out.flatten = s'.file`), every delivered unit except
possibly the very last ends with the newline delimiter, and each
poll step leaves the cursor at the start of the partial line and
delivers nothing. -/
theorem readLogs_follow_no_dup_no_split (env : Env) (f : List Char)
    (fuel : Nat) (s' : LoopState)
    (h : runF env true fuel (initState f) = some s') :
    s'.out.flatten = s'.file ∧
    (∀ u ∈ s'.out.dropLast, endsNl u) ∧
    (∀ (s : LoopState) (n : Nat), s.stop = false → s.flushstop = false →
      s.pos ≤ s.file.length → findNl (s.file.drop s.pos) = none →
      ∃ s₂, runF env true (n + 1) s = runF env true n s₂ ∧
        s₂.pos = s.pos ∧ s₂.out = s.out) := by
  have hinv := runF_inv env true fuel _ s' (initState_inv f) h
  have hstop := runF_some_stop env true fuel _ s' h
  obtain ⟨hunits, hpos⟩ := hinv.units_done hstop
  refine ⟨?_, hunits, ?_⟩
  · rw [hinv.flatten_eq, hpos, List.take_length]
  · intro s n hs hfs hple hf
    have hc : (!s.flushstop && true) = true := by simp [hfs]
    refine ⟨_, runF_eof_cont env true n s hs hf hc, ?_, rfl⟩
    simp only [List.length_drop]
    omega

theorem readLogs_follow_no_dup_no_split_witness :
    runF env0 true 5 (initState ("a\nb".toList)) = some sC1 ∧
    sC1.out.flatten = sC1.file :=
  ⟨by decide,
    (readLogs_follow_no_dup_no_split env0 ("a\nb".toList) 5 sC1 (by decide)).1⟩

/-- **C2.** In follow mode, once the registry check reports the step
finished (or the task evicted), the loop enters flush-and-stop mode:
one more pass delivers every remaining complete line and then the
final line even without a trailing delimiter, and the stream
terminates successfully with no further polls.  In particular, on the
file `"a\nb\nc"` under the schedule where the step is reported
finished after the first poll and nothing more is written, the client
receives exactly `"a\n"`, `"b\n"`, `"c"` and the stream ends. -/
theorem readLogs_flush_and_stop (env : Env) (s : LoopState)
    (h1 : s.stop = false) (h2 : s.flushstop = true)
    (h3 : s.pos ≤ s.file.length) :
    (∃ s', runF env true (s.file.length - s.pos + 2) s = some s' ∧
      s'.file = s.file ∧ s'.sleeps = s.sleeps ∧ s'.stop = true ∧
      s'.out.flatten = s.out.flatten ++ s.file.drop s.pos) ∧
    (runF envC2 true 10 (initState ("a\nb\nc".toList))).map
        (fun t => (t.out, t.stop)) =
      some (["a\n".toList, "b\n".toList, "c".toList], true) := by
  constructor
  · obtain ⟨s', hrun, hfile, hsleeps, hstop, _, hout⟩ :=
      runF_drain env true (s.file.length - s.pos) s h1 (by simp [h2])
        h3 le_rfl
    exact ⟨s', hrun, hfile, hsleeps, hstop, hout⟩
  · decide

theorem readLogs_flush_and_stop_witness :
    (sFlush.stop = false ∧ sFlush.flushstop = true ∧
      sFlush.pos ≤ sFlush.file.length) ∧
    (∃ s', runF env0 true (sFlush.file.length - sFlush.pos + 2) sFlush =
        some s' ∧
      s'.file = sFlush.file ∧ s'.sleeps = sFlush.sleeps ∧
      s'.stop = true ∧
      s'.out.flatten = sFlush.out.flatten ++ sFlush.file.drop sFlush.pos) :=
  ⟨⟨by decide, by decide, by decide⟩,
    (readLogs_flush_and_stop env0 sFlush (by decide) (by decide)
      (by decide)).1⟩

/-- **C3 (counterexample).** In non-follow mode over the file
`"a\nb"`, the reader does flush the partial-line bytes `"b"` — an
undelimited unit — to the sink before stopping, contradicting the
claim that no partial-line bytes are flushed: at EOF the code sets
`stop = true` and then falls through to `w.Write(data)` (api.go
lines 152-156). -/
theorem readLogs_nofollow_tail_flushed_cex :
    (runF (fun _ => (false, [])) false 5 (initState ("a\nb".toList))).map
        (fun t => t.out) =
      some ["a\n".toList, "b".toList] ∧
    ¬ endsNl ("b".toList) := by
  constructor
  · decide
  · intro hend
    exact absurd hend.2 (by decide)

/-- **C3 (amended).** In non-follow mode the reader stops at the
first EOF and returns success, having flushed the whole file —
including the final partial line, which is written by the
fall-through after `stop` is set — with no polling. -/
theorem readLogs_nofollow_flushes_tail (env : Env) (f : List Char) :
    ∃ s', runF env false (f.length + 2) (initState f) = some s' ∧
      s'.out.flatten = f ∧ s'.sleeps = 0 ∧ s'.stop = true ∧
      s'.file = f := by
  obtain ⟨s', hrun, hfile, hsleeps, hstop, _, hout⟩ :=
    runF_drain env false f.length (initState f) rfl (by simp)
      (by simp [initState]) (by simp [initState])
  refine ⟨s', ?_, ?_, ?_, hstop, ?_⟩
  · simpa [initState] using hrun
  · simpa [initState] using hout
  · simpa [initState] using hsleeps
  · simpa [initState] using hfile

/-- **C4.** In follow mode over a file that receives no further
appends, with the registry answering "finished or untracked" at every
poll, the loop terminates with `f.length + 3` iterations of fuel,
having slept exactly once and delivered every byte of the file with
none duplicated or dropped. -/
theorem readLogs_follow_finished_terminates (env : Env) (f : List Char)
    (h : ∀ k, env k = (true, [])) :
    ∃ s', runF env true (f.length + 3) (initState f) = some s' ∧
      s'.out.flatten = f ∧ s'.sleeps = 1 ∧ s'.stop = true ∧
      s'.file = f := by
  obtain ⟨s', hrun, hfile, hsleeps, hstop, hout⟩ :=
    runF_finished env h f.length (initState f) rfl rfl
      (by simp [initState]) (by simp [initState])
  refine ⟨s', ?_, ?_, ?_, hstop, ?_⟩
  · simpa [initState] using hrun
  · simpa [initState] using hout
  · simpa [initState] using hsleeps
  · simpa [initState] using hfile

theorem readLogs_follow_finished_terminates_witness :
    (∀ k, env0 k = (true, [])) ∧
    (∃ s', runF env0 true ("x\ny".toList.length + 3)
        (initState ("x\ny".toList)) = some s' ∧
      s'.out.flatten = "x\ny".toList ∧ s'.sleeps = 1 ∧ s'.stop = true ∧
      s'.file = "x\ny".toList) :=
  ⟨fun _ => rfl,
    readLogs_follow_finished_terminates env0 ("x\ny".toList)
      (fun _ => rfl)⟩

/-- **C9.** A non-follow read never consults the registry schedule
and never lets the writer interleave: the whole run — and hence the
delivered output — is a function of the loop state (in particular of
the file contents) alone, identical for any two environments; two
reads of the same contents therefore deliver byte-identical output. -/
theorem readLogs_nofollow_deterministic :
    ∀ (env₁ env₂ : Env) (fuel : Nat) (s : LoopState),
      runF env₁ false fuel s = runF env₂ false fuel s := by
  intro env₁ env₂ fuel
  induction fuel with
  | zero => intro s; rfl
  | succ n ih =>
    intro s
    cases hstop : s.stop with
    | true =>
      rw [runF_stop env₁ false n s hstop, runF_stop env₂ false n s hstop]
    | false =>
      cases hf : findNl (s.file.drop s.pos) with
      | some i =>
        rw [runF_line env₁ false n s i hstop hf,
          runF_line env₂ false n s i hstop hf]
        exact ih _
      | none =>
        have hc : (!s.flushstop && false) = false := by simp
        rw [runF_eof_stop env₁ false n s hstop hf hc,
          runF_eof_stop env₂ false n s hstop hf hc]
        exact ih _

/-- `Atoi` never succeeds on the empty string, so a parsed `step`
implies the emptiness check before it also passed. -/
theorem atoi_ne_empty {s : String} {n : Int} (h : atoi s = some n) :
    s ≠ "" := by
  intro he
  subst he
  have : atoi "" = none := rfl
  rw [this] at h
  cases h

/-- **C5 (counterexample).** The query `taskid=t&step=-1` is not
rejected: `strconv.Atoi` parses `-1` and neither endpoint checks the
sign, so the logs endpoint dispatches with step `-1` and the archive
endpoint proceeds past validation. -/
theorem step_negative_accepted_cex :
    logsServeHTTP qNeg = LogsRoute.dispatch "t" (-1) false ∧
    logsServeHTTP qNeg ≠ LogsRoute.badRequest ∧
    (archivesServeHTTP (fun _ => FileState.absent) (fun t _ => t)
        qNeg).1 ≠ Status.badRequest400 :=
  ⟨by decide, by decide, by decide⟩

/-- **C5 (amended).** A `step` that parses as an integer — negative
ones included — passes validation on both endpoints: the logs
endpoint dispatches with the parsed value, and the archive endpoint
never answers 400.  Only a missing `taskid`, a missing `step`, or an
unparsable `step` is rejected. -/
theorem step_validation_amended (q : Query) (n : Int)
    (ht : queryGet q "taskid" ≠ "")
    (hs : atoi (queryGet q "step") = some n) :
    logsServeHTTP q =
      LogsRoute.dispatch (queryGet q "taskid") n (queryHas q "follow") ∧
    ∀ (fs : String → FileState) (ap : String → Int → String),
      (archivesServeHTTP fs ap q).1 ≠ Status.badRequest400 := by
  have hse : queryGet q "step" ≠ "" := atoi_ne_empty hs
  constructor
  · simp [logsServeHTTP, ht, hse, hs]
  · intro fs ap
    rcases hra : readArchive (fs (ap (queryGet q "taskid") n)) with ⟨e, w⟩
    rcases e with _ | fe
    · simp [archivesServeHTTP, ht, hse, hs, hra]
    · rcases fe <;> simp [archivesServeHTTP, ht, hse, hs, hra]

theorem step_validation_amended_witness :
    atoi (queryGet qNeg "step") = some (-1) ∧
    logsServeHTTP qNeg =
      LogsRoute.dispatch (queryGet qNeg "taskid") (-1)
        (queryHas qNeg "follow") :=
  ⟨by decide,
    (step_validation_amended qNeg (-1) (by decide) (by decide)).1⟩

/-- **C6.** Omitting `taskid` or `step`, or passing a non-integer
`step`, makes both endpoints answer 400 immediately, and the archive
endpoint's response is independent of the filesystem and of the path
resolver — no file path is resolved or opened.  (For the logs
endpoint, `LogsRoute.badRequest` is by construction the branch that
returns before `readTaskLogs` resolves any path.) -/
theorem missing_params_reject (q : Query)
    (h : queryGet q "taskid" = "" ∨ queryGet q "step" = "" ∨
      atoi (queryGet q "step") = none) :
    logsServeHTTP q = LogsRoute.badRequest ∧
    ∀ (fs fs' : String → FileState) (ap ap' : String → Int → String),
      archivesServeHTTP fs ap q = (Status.badRequest400, []) ∧
      archivesServeHTTP fs ap q = archivesServeHTTP fs' ap' q := by
  have key : logsServeHTTP q = LogsRoute.badRequest ∧
      ∀ (fs : String → FileState) (ap : String → Int → String),
        archivesServeHTTP fs ap q = (Status.badRequest400, []) := by
    by_cases h1 : queryGet q "taskid" = ""
    · exact ⟨by simp [logsServeHTTP, h1],
        fun fs ap => by simp [archivesServeHTTP, h1]⟩
    · by_cases h2 : queryGet q "step" = ""
      · exact ⟨by simp [logsServeHTTP, h1, h2],
          fun fs ap => by simp [archivesServeHTTP, h1, h2]⟩
      · have h3 : atoi (queryGet q "step") = none := by tauto
        exact ⟨by simp [logsServeHTTP, h1, h2, h3],
          fun fs ap => by simp [archivesServeHTTP, h1, h2, h3]⟩
  exact ⟨key.1, fun fs fs' ap ap' =>
    ⟨key.2 fs ap, by rw [key.2 fs ap, key.2 fs' ap']⟩⟩

theorem missing_params_reject_witness :
    (queryGet ([] : Query) "taskid" = "" ∨
      queryGet ([] : Query) "step" = "" ∨
      atoi (queryGet ([] : Query) "step") = none) ∧
    logsServeHTTP ([] : Query) = LogsRoute.badRequest :=
  ⟨Or.inl (by decide), (missing_params_reject [] (Or.inl (by decide))).1⟩

/-- **C7.** On a validated archive request, a missing archive file
yields 404 with zero bytes written to the client body; a failure to
open for any other reason yields 500 (also with nothing written), and
a failure during the copy yields 500. -/
theorem archive_error_mapping (q : Query)
    (fs : String → FileState) (ap : String → Int → String) (n : Int)
    (ht : queryGet q "taskid" ≠ "")
    (hs : atoi (queryGet q "step") = some n) :
    (fs (ap (queryGet q "taskid") n) = FileState.absent →
      archivesServeHTTP fs ap q = (Status.notFound404, [])) ∧
    (fs (ap (queryGet q "taskid") n) = FileState.openFail →
      archivesServeHTTP fs ap q = (Status.serverError500, [])) ∧
    (∀ w, fs (ap (queryGet q "taskid") n) = FileState.copyFail w →
      (archivesServeHTTP fs ap q).1 = Status.serverError500) := by
  have hse : queryGet q "step" ≠ "" := atoi_ne_empty hs
  refine ⟨fun hfile => ?_, fun hfile => ?_, fun w hfile => ?_⟩ <;>
    simp [archivesServeHTTP, ht, hse, hs, hfile, readArchive]

theorem archive_error_mapping_witness :
    atoi (queryGet [("taskid", "t"), ("step", "0")] "step") = some 0 ∧
    archivesServeHTTP (fun _ => FileState.absent) (fun t _ => t)
      [("taskid", "t"), ("step", "0")] = (Status.notFound404, []) :=
  ⟨by decide,
    (archive_error_mapping [("taskid", "t"), ("step", "0")]
        (fun _ => FileState.absent) (fun t _ => t) 0
        (by decide) (by decide)).1 rfl⟩

/-- **C8.** A submission whose body fails to decode is answered with
500 and nothing reaches the single-consumer queue; a decoded task is
handed to the queue (appended to the consumer's sequence by the
synchronous channel send) and the response carries no body. -/
theorem submission_handoff {α : Type} (sent : List α) :
    taskSubmissionServeHTTP (none : Option α) sent =
      (SubmitResponse.serverError500, sent) ∧
    ∀ et : α, taskSubmissionServeHTTP (some et) sent =
      (SubmitResponse.accepted, sent ++ [et]) :=
  ⟨rfl, fun _ => rfl⟩

/-- **C10.** The phase read `Steps[step]` performed by the follow
poll is in bounds exactly under the precondition `0 ≤ step <
Steps.length`: under it the access succeeds, outside it the access
is the out-of-range panic (`none`); and the endpoint layer does not
establish that precondition — the query `taskid=t&step=1` passes
validation and is dispatched, yet against a tracked task with one
step its poll check hits the panic. -/
theorem steps_access_unguarded (steps : List Phase) (step : Int)
    (h0 : 0 ≤ step) (h1 : step.toNat < steps.length) :
    (stepsAccess steps step).isSome = true ∧
    (∀ (steps' : List Phase) (step' : Int),
      ¬(0 ≤ step' ∧ step'.toNat < steps'.length) →
      stepsAccess steps' step' = none) ∧
    logsServeHTTP [("taskid", "t"), ("step", "1")] =
      LogsRoute.dispatch "t" 1 false ∧
    pollCheck (fun _ => some [Phase.running]) "t" 1 = none := by
  refine ⟨?_, ?_, by decide, by decide⟩
  · simp [stepsAccess, h0, h1]
  · intro steps' step' hb
    simp [stepsAccess, hb]

theorem steps_access_unguarded_witness :
    ((0 : Int) ≤ 0 ∧ (0 : Int).toNat < [Phase.running].length) ∧
    (stepsAccess [Phase.running] 0).isSome = true :=
  ⟨⟨by decide, by decide⟩,
    (steps_access_unguarded [Phase.running] 0 (by decide) (by decide)).1⟩

end AgolaExecutorApi
